import Mathlib

/-!
# Verification of the TFFS reader (`fritz_tffs_read.c`)

A shallow embedding of the core of `fritz_tffs_read.c`: the static key
registry (`ids`, `tffs_find_id`) and the decoder (`tffs_parse`).

Modelling choices, each matching the C source:

* The buffer is modelled as a memory function `Mem : Nat → Nat` giving the
  byte at each address (the `malloc`ed buffer starts at address 0 and machine
  memory continues past `tffs_size`, so the unchecked `memcpy` in the source
  can be modelled faithfully, including its reads beyond the buffer).
  Reads of header fields reduce values modulo 256, matching `uint8_t` storage.
* `ntohs` on a little-endian host: the 16-bit fields are read big-endian and
  the two bytes of each field are swapped in place (`swapHeader`), matching
  `entry->id = ntohs(entry->id)` writing the host-order value back through
  the struct pointer.
* The global `ids[]` array is modelled as a `List TffsId`; the in-place
  mutation through the pointer returned by `tffs_find_id` is modelled by
  `updateFirst`, which rewrites the first entry whose `id` matches and
  reports whether a match was found (the `if (id)` branch).
* The `while` loop is modelled with structural fuel; `tffs_parse` supplies
  `tffs_size` units of fuel, which is shown to be sufficient (the result is
  fuel-independent once the fuel covers `tffs_size - pos`, because the
  position advances by at least 4 each iteration).
-/

/-- Machine memory: the byte stored at each address.  The TFFS buffer starts
at address 0; addresses `≥ tffs_size` are memory beyond the buffer. -/
abbrev Mem := Nat → Nat

/-- Memory holding the bytes of `l` from address 0 on, 0-filled beyond. -/
def memOfList (l : List Nat) : Mem := fun a => l.getD a 0

/-- Big-endian 16-bit read at `pos`, as done by reading a `uint16_t` field of
`struct tffs_entry` and applying `ntohs`: value `buffer[pos]*256 + buffer[pos+1]`.
Bytes are reduced mod 256, matching `uint8_t` storage. -/
def readBE16 (m : Mem) (pos : Nat) : Nat :=
  (m pos % 256) * 256 + m (pos + 1) % 256

/-- The in-place effect of `entry->id = ntohs(entry->id); entry->len =
ntohs(entry->len)` on a little-endian host: both 16-bit fields of the header
at `pos` have their bytes swapped. -/
def swapHeader (m : Mem) (pos : Nat) : Mem := fun a =>
  if a = pos then m (pos + 1)
  else if a = pos + 1 then m pos
  else if a = pos + 2 then m (pos + 3)
  else if a = pos + 3 then m (pos + 2)
  else m a

/-- The padding mask `(len + 3) & ~0x03` from the source: round `len + 3` down to a multiple
of 4 with a 32-bit mask (`~0x03` on `uint32_t` is `0xFFFFFFFC`). -/
def pad4 (len : Nat) : Nat := (len + 3) &&& 0xFFFFFFFC

/-- The `memcpy(id->val, &buffer[pos], entry->len)` read: `n` consecutive
bytes of memory starting at `pos` (possibly running past the buffer). -/
def payloadBytes (m : Mem) (pos : Nat) : Nat → List Nat
  | 0 => []
  | n + 1 => m pos :: payloadBytes m (pos + 1) n

/-- One entry of the static `ids[]` table (`struct tffs_id`): the numeric
tag, the key name, and the mutable value slot (`val`/`offset`/`len`).
`val = none` models the `NULL` pointer of a static zero-initialised entry;
`val = some bytes` models the `calloc`ed copy of the payload. -/
structure TffsId where
  id : Nat
  name : String
  val : Option (List Nat)
  offset : Nat
  len : Nat
deriving DecidableEq

/-- The static `ids[]` table exactly as declared in the source, in
declaration order, with zero-initialised value slots. -/
def ids : List TffsId :=
  [⟨0x0100, "hw_revision", none, 0, 0⟩,
   ⟨0x0101, "productid", none, 0, 0⟩,
   ⟨0x0102, "serialnumber", none, 0, 0⟩,
   ⟨0x0103, "dmc", none, 0, 0⟩,
   ⟨0x0104, "hw_subrevision", none, 0, 0⟩,
   ⟨0x0182, "bootloader_version", none, 0, 0⟩,
   ⟨0x0184, "macbluetooth", none, 0, 0⟩,
   ⟨0x0188, "maca", none, 0, 0⟩,
   ⟨0x0189, "macb", none, 0, 0⟩,
   ⟨0x018A, "macwlan", none, 0, 0⟩,
   ⟨0x018B, "macdsl", none, 0, 0⟩,
   ⟨0x018F, "my_ipaddress", none, 0, 0⟩,
   ⟨0x0195, "macwlan2", none, 0, 0⟩,
   ⟨0x01A3, "usb_device_id", none, 0, 0⟩,
   ⟨0x01A3, "usb_revision_id", none, 0, 0⟩,
   ⟨0x01A4, "usb_device_name", none, 0, 0⟩,
   ⟨0x01A5, "usb_manufacturer_name", none, 0, 0⟩,
   ⟨0x01A6, "firmware_version", none, 0, 0⟩,
   ⟨0x01A7, "language", none, 0, 0⟩,
   ⟨0x01A8, "country", none, 0, 0⟩,
   ⟨0x01A9, "annex", none, 0, 0⟩,
   ⟨0x01AB, "wlan_key", none, 0, 0⟩,
   ⟨0x01AD, "http_key", none, 0, 0⟩,
   ⟨0x01B8, "wlan_cal", none, 0, 0⟩,
   ⟨0x01FD, "urlader_version", none, 0, 0⟩]

/-- The lookup `tffs_find_id`: linear scan of the table, returning the first entry
whose tag equals `t`, or `none` (`NULL`) when no entry matches. -/
def tffs_find_id (l : List TffsId) (t : Nat) : Option TffsId :=
  l.find? (fun e => e.id == t)

/-- The mutation performed through the pointer returned by `tffs_find_id`
when a record matches: the first entry of `l` whose tag is `t` gets
`len := vlen`, `offset := off`, `val := some payload`; the `Bool` reports
whether a matching entry was found (the `if (id)` test). -/
def updateFirst (l : List TffsId) (t vlen off : Nat) (payload : List Nat) :
    List TffsId × Bool :=
  match l with
  | [] => ([], false)
  | e :: rest =>
    if e.id = t then
      ({ e with len := vlen, offset := off, val := some payload } :: rest, true)
    else
      let r := updateFirst rest t vlen off payload
      (e :: r.1, r.2)

/-- The effect of one non-sentinel loop iteration of `tffs_parse` starting
at `pos`: byte-swap the header in place, advance past the header, copy the
payload into the matching table entry (if any) and bump `count`, then skip
the padded payload.  Returns the new memory, table, count and position. -/
def tffs_step (m : Mem) (l : List TffsId) (pos count : Nat) :
    Mem × List TffsId × Nat × Nat :=
  let vid := readBE16 m pos
  let vlen := readBE16 m (pos + 2)
  let m1 := swapHeader m pos
  let u := updateFirst l vid vlen (pos + 4) (payloadBytes m1 (pos + 4) vlen)
  (m1, u.1, (if u.2 then count + 1 else count), pos + 4 + pad4 vlen)

/-- The `while (pos + sizeof(struct tffs_entry) < tffs_size)` loop of
`tffs_parse`, with structural fuel.  Each iteration byte-swaps the header at
`pos`; tag `0xffff` terminates the scan (`goto end`); otherwise the record
is processed by `tffs_step`. -/
def tffs_parse_loop :
    Nat → Nat → Mem → List TffsId → Nat → Nat → Mem × List TffsId × Nat
  | 0, _, m, l, _, count => (m, l, count)
  | fuel + 1, size, m, l, pos, count =>
    if pos + 4 < size then
      if readBE16 m pos = 0xffff then
        (swapHeader m pos, l, count)
      else
        let s := tffs_step m l pos count
        tffs_parse_loop fuel size s.1 s.2.1 s.2.2.2 s.2.2.1
    else (m, l, count)

/-- The scan `tffs_parse` run from an arbitrary incoming table state `l` (the C table
is a mutable global, so a call observes whatever state the table is in). -/
def tffs_parse_from (l : List TffsId) (size : Nat) (m : Mem) :
    Mem × List TffsId × Nat :=
  tffs_parse_loop size size m l 0 0

/-- The entry point `tffs_parse buffer` as called by `main`: scan from position 0 with the
pristine static table.  Returns the final memory (the buffer is mutated in
place), the final table (holding the decoded values) and `count`. -/
def tffs_parse (size : Nat) (m : Mem) : Mem × List TffsId × Nat :=
  tffs_parse_from ids size m

/-- Spec-side count for comparison: the number of distinct registry entries
holding a non-empty Decoded Value (worded from the spec invariant
`count == number of distinct registry entries with a non-empty Decoded Value`). -/
def decodedValueCountSpec (l : List TffsId) : Nat :=
  (l.filter (fun e => e.val ≠ none)).length

/-- The number of non-sentinel records visited by the scan whose tag occurs
in `tags` (the registry's tag column); mirrors the walk of `tffs_parse_loop`
and counts every matched record, duplicates included. -/
def matchedRecordCount : Nat → Nat → Mem → List Nat → Nat → Nat
  | 0, _, _, _, _ => 0
  | fuel + 1, size, m, tags, pos =>
    if pos + 4 < size then
      if readBE16 m pos = 0xffff then 0
      else
        (if tags.contains (readBE16 m pos) then 1 else 0) +
          matchedRecordCount fuel size (swapHeader m pos) tags
            (pos + 4 + pad4 (readBE16 m (pos + 2)))
    else 0

/-- The positions of the record headers visited by the scan (including the
sentinel header, whose bytes are also swapped before the tag test). -/
def visitedHeaders : Nat → Nat → Mem → Nat → List Nat
  | 0, _, _, _ => []
  | fuel + 1, size, m, pos =>
    if pos + 4 < size then
      if readBE16 m pos = 0xffff then [pos]
      else
        pos :: visitedHeaders fuel size (swapHeader m pos)
          (pos + 4 + pad4 (readBE16 m (pos + 2)))
    else []

/-- A well-formed wire record for tag `t` and payload `p`: 4-byte big-endian
header, the payload, then zero padding to the next multiple of 4. -/
def mkRecord (t : Nat) (p : List Nat) : List Nat :=
  [t / 256, t % 256, p.length / 256, p.length % 256] ++ p ++
    List.replicate (pad4 p.length - p.length) 0

theorem swapHeader_eq_of_lt (m : Mem) (pos a : Nat) (h : a < pos) :
    swapHeader m pos a = m a := by
  unfold swapHeader
  have h0 : a ≠ pos := by omega
  have h1 : a ≠ pos + 1 := by omega
  have h2 : a ≠ pos + 2 := by omega
  have h3 : a ≠ pos + 3 := by omega
  simp [h0, h1, h2, h3]

theorem swapHeader_eq_of_ge (m : Mem) (pos a : Nat) (h : pos + 4 ≤ a) :
    swapHeader m pos a = m a := by
  unfold swapHeader
  have h0 : a ≠ pos := by omega
  have h1 : a ≠ pos + 1 := by omega
  have h2 : a ≠ pos + 2 := by omega
  have h3 : a ≠ pos + 3 := by omega
  simp [h0, h1, h2, h3]

theorem readBE16_swapHeader_ge (m : Mem) (pos q : Nat) (h : pos + 4 ≤ q) :
    readBE16 (swapHeader m pos) q = readBE16 m q := by
  unfold readBE16
  rw [swapHeader_eq_of_ge m pos q h, swapHeader_eq_of_ge m pos (q + 1) (by omega)]

theorem payloadBytes_congr (m m2 : Mem) (pos n : Nat)
    (h : ∀ a, pos ≤ a → a < pos + n → m a = m2 a) :
    payloadBytes m pos n = payloadBytes m2 pos n := by
  induction n generalizing pos with
  | zero => rfl
  | succ k ih =>
    unfold payloadBytes
    rw [h pos (by omega) (by omega), ih (pos + 1) (fun a h1 h2 => h a (by omega) (by omega))]

theorem payloadBytes_swapHeader (m : Mem) (pos q n : Nat) (h : pos + 4 ≤ q) :
    payloadBytes (swapHeader m pos) q n = payloadBytes m q n :=
  payloadBytes_congr _ _ _ _ (fun a h1 _ => swapHeader_eq_of_ge m pos a (by omega))

theorem tffs_parse_loop_exit (fuel size : Nat) (m : Mem) (l : List TffsId)
    (pos count : Nat) (h : ¬ pos + 4 < size) :
    tffs_parse_loop fuel size m l pos count = (m, l, count) := by
  cases fuel <;> simp [tffs_parse_loop, h]

theorem tffs_parse_loop_sentinel (fuel size : Nat) (m : Mem) (l : List TffsId)
    (pos count : Nat) (hg : pos + 4 < size) (hs : readBE16 m pos = 0xffff) :
    tffs_parse_loop (fuel + 1) size m l pos count = (swapHeader m pos, l, count) := by
  simp [tffs_parse_loop, hg, hs]

theorem tffs_parse_loop_step (fuel size : Nat) (m : Mem) (l : List TffsId)
    (pos count : Nat) (hg : pos + 4 < size) (hs : readBE16 m pos ≠ 0xffff) :
    tffs_parse_loop (fuel + 1) size m l pos count =
      tffs_parse_loop fuel size (tffs_step m l pos count).1
        (tffs_step m l pos count).2.1 (tffs_step m l pos count).2.2.2
        (tffs_step m l pos count).2.2.1 := by
  simp [tffs_parse_loop, hg, hs]

theorem land_mask32 (n : Nat) (h : n < 2 ^ 32) :
    n &&& 0xFFFFFFFC = n - n % 4 := by
  have hmask : (0xFFFFFFFC : Nat) = (2 ^ 30 - 1) <<< 2 := by
    rw [Nat.shiftLeft_eq]
    norm_num
  have hrhs : n - n % 4 = (n >>> 2) <<< 2 := by
    rw [Nat.shiftRight_eq_div_pow, Nat.shiftLeft_eq]
    omega
  apply Nat.eq_of_testBit_eq
  intro i
  rw [Nat.testBit_land, hmask, hrhs, Nat.testBit_shiftLeft, Nat.testBit_shiftLeft]
  rcases Nat.lt_or_ge i 2 with hi | hi
  · have : ¬ (2 ≤ i) := by omega
    simp [this]
  · have h2 : (decide (2 ≤ i)) = true := by simp [hi]
    rw [h2, Nat.testBit_shiftRight]
    have hi2 : 2 + (i - 2) = i := by omega
    rw [hi2, Nat.testBit_two_pow_sub_one]
    rcases Nat.lt_or_ge (i - 2) 30 with h30 | h30
    · simp [h30]
    · have hfalse : n.testBit i = false := by
        apply Nat.testBit_eq_false_of_lt
        calc n < 2 ^ 32 := h
        _ ≤ 2 ^ i := Nat.pow_le_pow_right (by omega) (by omega)
      simp [hfalse]

theorem pad4_sub (len : Nat) (h : len + 3 < 2 ^ 32) :
    pad4 len = (len + 3) - (len + 3) % 4 :=
  land_mask32 (len + 3) h

theorem le_pad4 (len : Nat) (h : len + 3 < 2 ^ 32) : len ≤ pad4 len := by
  rw [pad4_sub len h]
  omega

theorem pad4_lt (len : Nat) (h : len + 3 < 2 ^ 32) : pad4 len < len + 4 := by
  rw [pad4_sub len h]
  omega

theorem readBE16_lt (m : Mem) (pos : Nat) : readBE16 m pos < 65536 := by
  unfold readBE16
  have h1 : m pos % 256 < 256 := Nat.mod_lt _ (by omega)
  have h2 : m (pos + 1) % 256 < 256 := Nat.mod_lt _ (by omega)
  omega

theorem tffs_parse_loop_fuel (f1 f2 size : Nat) (m : Mem) (l : List TffsId)
    (pos count : Nat) (h1 : size - pos ≤ f1) (h2 : size - pos ≤ f2) :
    tffs_parse_loop f1 size m l pos count = tffs_parse_loop f2 size m l pos count := by
  induction f1 generalizing f2 m l pos count with
  | zero =>
    have hg : ¬ pos + 4 < size := by omega
    rw [tffs_parse_loop_exit _ _ _ _ _ _ hg, tffs_parse_loop_exit _ _ _ _ _ _ hg]
  | succ k ih =>
    cases f2 with
    | zero =>
      have hg : ¬ pos + 4 < size := by omega
      rw [tffs_parse_loop_exit _ _ _ _ _ _ hg, tffs_parse_loop_exit _ _ _ _ _ _ hg]
    | succ k2 =>
      by_cases hg : pos + 4 < size
      · by_cases hs : readBE16 m pos = 0xffff
        · rw [tffs_parse_loop_sentinel _ _ _ _ _ _ hg hs,
            tffs_parse_loop_sentinel _ _ _ _ _ _ hg hs]
        · rw [tffs_parse_loop_step _ _ _ _ _ _ hg hs,
            tffs_parse_loop_step _ _ _ _ _ _ hg hs]
          apply ih
          · show size - (tffs_step m l pos count).2.2.2 ≤ k
            unfold tffs_step
            simp only
            omega
          · show size - (tffs_step m l pos count).2.2.2 ≤ k2
            unfold tffs_step
            simp only
            omega
      · rw [tffs_parse_loop_exit _ _ _ _ _ _ hg, tffs_parse_loop_exit _ _ _ _ _ _ hg]

theorem memOfList_append_lt (l1 l2 : List Nat) (a : Nat) (h : a < l1.length) :
    memOfList (l1 ++ l2) a = memOfList l1 a := by
  unfold memOfList
  rw [List.getD_append _ _ _ _ h]

theorem memOfList_append_ge (l1 l2 : List Nat) (a : Nat) (h : l1.length ≤ a) :
    memOfList (l1 ++ l2) a = memOfList l2 (a - l1.length) := by
  unfold memOfList
  rw [List.getD_append_right _ _ _ _ h]

theorem memOfList_at_cons (pre : List Nat) (b : Nat) (post : List Nat) :
    memOfList (pre ++ b :: post) pre.length = b := by
  rw [memOfList_append_ge pre _ _ (Nat.le_refl _), Nat.sub_self]
  rfl

theorem readBE16_memOfList (pre : List Nat) (b0 b1 : Nat) (post : List Nat) :
    readBE16 (memOfList (pre ++ b0 :: b1 :: post)) pre.length =
      (b0 % 256) * 256 + b1 % 256 := by
  unfold readBE16
  rw [memOfList_at_cons]
  have h2 : pre.length + 1 = (pre ++ [b0]).length := by simp
  have h3 : pre ++ b0 :: b1 :: post = (pre ++ [b0]) ++ b1 :: post := by simp
  rw [h2, h3, memOfList_at_cons]

theorem payloadBytes_memOfList (pre p post : List Nat) :
    payloadBytes (memOfList (pre ++ p ++ post)) pre.length p.length = p := by
  induction p generalizing pre with
  | nil => rfl
  | cons x rest ih =>
    show memOfList (pre ++ x :: rest ++ post) pre.length ::
        payloadBytes (memOfList (pre ++ x :: rest ++ post)) (pre.length + 1) rest.length
      = x :: rest
    have hx : memOfList (pre ++ x :: rest ++ post) pre.length = x := by
      have : pre ++ x :: rest ++ post = pre ++ x :: (rest ++ post) := by simp
      rw [this, memOfList_at_cons]
    rw [hx]
    have h2 : pre.length + 1 = (pre ++ [x]).length := by simp
    have h3 : pre ++ x :: rest ++ post = (pre ++ [x]) ++ rest ++ post := by simp
    rw [h2, h3, ih]

theorem mkRecord_length (t : Nat) (p : List Nat) (h : p.length + 3 < 2 ^ 32) :
    (mkRecord t p).length = 4 + pad4 p.length := by
  unfold mkRecord
  have := le_pad4 p.length h
  simp only [List.length_append, List.length_cons, List.length_replicate]
  simp
  omega

theorem readBE16_mkRecord_tag (pre : List Nat) (t : Nat) (p post : List Nat)
    (ht : t < 65536) :
    readBE16 (memOfList (pre ++ mkRecord t p ++ post)) pre.length = t := by
  unfold mkRecord
  have hb : pre ++ ([t / 256, t % 256, p.length / 256, p.length % 256] ++ p ++
      List.replicate (pad4 p.length - p.length) 0) ++ post =
      pre ++ t / 256 :: t % 256 :: (p.length / 256 :: p.length % 256 :: (p ++
        List.replicate (pad4 p.length - p.length) 0 ++ post)) := by simp
  rw [hb, readBE16_memOfList]
  omega

theorem readBE16_mkRecord_len (pre : List Nat) (t : Nat) (p post : List Nat)
    (hp : p.length < 65536) :
    readBE16 (memOfList (pre ++ mkRecord t p ++ post)) (pre.length + 2) = p.length := by
  unfold mkRecord
  have h2 : pre.length + 2 = (pre ++ [t / 256, t % 256]).length := by simp
  have hb : pre ++ ([t / 256, t % 256, p.length / 256, p.length % 256] ++ p ++
      List.replicate (pad4 p.length - p.length) 0) ++ post =
      (pre ++ [t / 256, t % 256]) ++ p.length / 256 :: p.length % 256 :: (p ++
        List.replicate (pad4 p.length - p.length) 0 ++ post) := by simp
  rw [h2, hb, readBE16_memOfList]
  omega

theorem payloadBytes_mkRecord (pre : List Nat) (t : Nat) (p post : List Nat) :
    payloadBytes (memOfList (pre ++ mkRecord t p ++ post)) (pre.length + 4) p.length
      = p := by
  unfold mkRecord
  have h4 : pre.length + 4 =
      (pre ++ [t / 256, t % 256, p.length / 256, p.length % 256]).length := by simp
  have hb : pre ++ ([t / 256, t % 256, p.length / 256, p.length % 256] ++ p ++
      List.replicate (pad4 p.length - p.length) 0) ++ post =
      (pre ++ [t / 256, t % 256, p.length / 256, p.length % 256]) ++ p ++
        (List.replicate (pad4 p.length - p.length) 0 ++ post) := by simp
  rw [h4, hb, payloadBytes_memOfList]

theorem tffs_step_spec (m : Mem) (l : List TffsId) (pos count t : Nat) (p : List Nat)
    (hid : readBE16 m pos = t) (hlen : readBE16 m (pos + 2) = p.length)
    (hpay : payloadBytes m (pos + 4) p.length = p) :
    tffs_step m l pos count =
      (swapHeader m pos, (updateFirst l t p.length (pos + 4) p).1,
       (if (updateFirst l t p.length (pos + 4) p).2 then count + 1 else count),
       pos + 4 + pad4 p.length) := by
  unfold tffs_step
  simp only [hid, hlen]
  rw [payloadBytes_swapHeader m pos (pos + 4) p.length (by omega), hpay]

theorem updateFirst_map_id (l : List TffsId) (t vlen off : Nat) (payload : List Nat) :
    (updateFirst l t vlen off payload).1.map (fun e => e.id) =
      l.map (fun e => e.id) := by
  induction l with
  | nil => rfl
  | cons e rest ih =>
    unfold updateFirst
    by_cases h : e.id = t
    · simp [h]
    · simp [h, ih]

theorem updateFirst_found_iff (l : List TffsId) (t vlen off : Nat) (payload : List Nat) :
    (updateFirst l t vlen off payload).2 = l.any (fun e => e.id == t) := by
  induction l with
  | nil => rfl
  | cons e rest ih =>
    unfold updateFirst
    by_cases h : e.id = t
    · simp [h]
    · simp [h, ih]

theorem tffs_find_id_cons_neg (e : TffsId) (l : List TffsId) (t : Nat)
    (h : e.id ≠ t) : tffs_find_id (e :: l) t = tffs_find_id l t := by
  unfold tffs_find_id
  rw [List.find?_cons_of_neg]
  simp [h]

theorem tffs_find_id_updateFirst (l : List TffsId) (t vlen off : Nat)
    (payload : List Nat) (h : l.any (fun e => e.id == t) = true) :
    ∃ e, tffs_find_id (updateFirst l t vlen off payload).1 t = some e ∧
      e.val = some payload ∧ e.len = vlen ∧ e.offset = off := by
  induction l with
  | nil => simp at h
  | cons e rest ih =>
    by_cases he : e.id = t
    · refine ⟨{ e with len := vlen, offset := off, val := some payload }, ?_, rfl, rfl, rfl⟩
      unfold updateFirst
      simp [he, tffs_find_id]
    · have hbe : (e.id == t) = false := by simp [he]
      have hh : rest.any (fun x => x.id == t) = true := by
        rw [List.any_cons, hbe, Bool.false_or] at h
        exact h
      obtain ⟨e2, h2, h3⟩ := ih hh
      refine ⟨e2, ?_, h3⟩
      unfold updateFirst
      simp only [he, if_false]
      rw [tffs_find_id_cons_neg _ _ _ he]
      exact h2

theorem updateFirst_any_id (l : List TffsId) (t vlen off t2 : Nat)
    (payload : List Nat) :
    (updateFirst l t vlen off payload).1.any (fun e => e.id == t2) =
      l.any (fun e => e.id == t2) := by
  induction l with
  | nil => rfl
  | cons e rest ih =>
    unfold updateFirst
    by_cases h : e.id = t
    · simp [h]
    · simp [h, ih]

theorem tffs_parse_loop_step2 (fuel size : Nat) (m : Mem) (l : List TffsId)
    (pos count : Nat) (hg : pos + 4 < size) (hs : readBE16 m pos ≠ 0xffff)
    (hf : 1 ≤ fuel) :
    tffs_parse_loop fuel size m l pos count =
      tffs_parse_loop (fuel - 1) size (tffs_step m l pos count).1
        (tffs_step m l pos count).2.1 (tffs_step m l pos count).2.2.2
        (tffs_step m l pos count).2.2.1 := by
  cases fuel with
  | zero => omega
  | succ k => simpa using tffs_parse_loop_step k size m l pos count hg hs

theorem tffs_parse_loop_sentinel2 (fuel size : Nat) (m : Mem) (l : List TffsId)
    (pos count : Nat) (hg : pos + 4 < size) (hs : readBE16 m pos = 0xffff)
    (hf : 1 ≤ fuel) :
    tffs_parse_loop fuel size m l pos count = (swapHeader m pos, l, count) := by
  cases fuel with
  | zero => omega
  | succ k => exact tffs_parse_loop_sentinel k size m l pos count hg hs

theorem any_id_eq_contains (l : List TffsId) (t : Nat) :
    (l.map (fun e => e.id)).contains t = l.any (fun e => e.id == t) := by
  induction l with
  | nil => rfl
  | cons e rest ih =>
    have hc : (t == e.id) = (e.id == t) := by
      by_cases h : e.id = t
      · simp [h]
      · have h2 : t ≠ e.id := fun hh => h hh.symm
        simp [h, h2]
    simp only [List.map_cons, List.contains_cons, List.any_cons, hc, ih]

theorem matchedRecordCount_exit (fuel size : Nat) (m : Mem) (tags : List Nat)
    (pos : Nat) (h : ¬ pos + 4 < size) :
    matchedRecordCount fuel size m tags pos = 0 := by
  cases fuel <;> simp [matchedRecordCount, h]

theorem matchedRecordCount_sentinel (fuel size : Nat) (m : Mem) (tags : List Nat)
    (pos : Nat) (hg : pos + 4 < size) (hs : readBE16 m pos = 0xffff) :
    matchedRecordCount (fuel + 1) size m tags pos = 0 := by
  simp [matchedRecordCount, hg, hs]

theorem matchedRecordCount_step (fuel size : Nat) (m : Mem) (tags : List Nat)
    (pos : Nat) (hg : pos + 4 < size) (hs : readBE16 m pos ≠ 0xffff) :
    matchedRecordCount (fuel + 1) size m tags pos =
      (if tags.contains (readBE16 m pos) then 1 else 0) +
        matchedRecordCount fuel size (swapHeader m pos) tags
          (pos + 4 + pad4 (readBE16 m (pos + 2))) := by
  conv_lhs => unfold matchedRecordCount
  simp [hg, hs]

theorem tffs_parse_loop_count (fuel size : Nat) (m : Mem) (l : List TffsId)
    (pos count : Nat) :
    (tffs_parse_loop fuel size m l pos count).2.2 =
      count + matchedRecordCount fuel size m (l.map (fun e => e.id)) pos := by
  induction fuel generalizing m l pos count with
  | zero => simp [tffs_parse_loop, matchedRecordCount]
  | succ k ih =>
    by_cases hg : pos + 4 < size
    · by_cases hs : readBE16 m pos = 0xffff
      · rw [tffs_parse_loop_sentinel _ _ _ _ _ _ hg hs,
          matchedRecordCount_sentinel _ _ _ _ _ hg hs]
        simp
      · rw [tffs_parse_loop_step _ _ _ _ _ _ hg hs, ih,
          matchedRecordCount_step _ _ _ _ _ hg hs]
        unfold tffs_step
        simp only [updateFirst_map_id, updateFirst_found_iff, any_id_eq_contains]
        by_cases hm : (l.any fun e => e.id == readBE16 m pos) = true
        · rw [if_pos hm, if_pos hm]
          omega
        · rw [if_neg hm, if_neg hm]
          omega
    · rw [tffs_parse_loop_exit _ _ _ _ _ _ hg,
        matchedRecordCount_exit _ _ _ _ _ hg]
      simp

theorem valCount_cons (e : TffsId) (l : List TffsId) :
    decodedValueCountSpec (e :: l) =
      (if e.val = none then 0 else 1) + decodedValueCountSpec l := by
  by_cases h : e.val = none
  · simp [decodedValueCountSpec, List.filter_cons, h]
  · simp [decodedValueCountSpec, List.filter_cons, h]
    omega

theorem updateFirst_valCount (l : List TffsId) (t vlen off : Nat) (p : List Nat) :
    decodedValueCountSpec (updateFirst l t vlen off p).1 ≤
      decodedValueCountSpec l +
        (if (updateFirst l t vlen off p).2 then 1 else 0) := by
  induction l with
  | nil => simp [updateFirst, decodedValueCountSpec]
  | cons e rest ih =>
    unfold updateFirst
    by_cases h : e.id = t
    · simp only [h, if_true, if_pos rfl]
      rw [valCount_cons, valCount_cons]
      simp only
      by_cases hv : e.val = none <;> simp [hv] <;> omega
    · simp only [h, if_false, if_neg h]
      rw [valCount_cons, valCount_cons]
      have := ih
      by_cases hf : (updateFirst rest t vlen off p).2 <;> simp [hf] at this ⊢ <;> omega

theorem tffs_parse_loop_valCount (fuel size : Nat) (m : Mem) (l : List TffsId)
    (pos count : Nat) :
    decodedValueCountSpec (tffs_parse_loop fuel size m l pos count).2.1 + count ≤
      decodedValueCountSpec l + (tffs_parse_loop fuel size m l pos count).2.2 := by
  induction fuel generalizing m l pos count with
  | zero => simp [tffs_parse_loop]
  | succ k ih =>
    by_cases hg : pos + 4 < size
    · by_cases hs : readBE16 m pos = 0xffff
      · rw [tffs_parse_loop_sentinel _ _ _ _ _ _ hg hs]
      · rw [tffs_parse_loop_step _ _ _ _ _ _ hg hs]
        have hu := updateFirst_valCount l (readBE16 m pos) (readBE16 m (pos + 2))
          (pos + 4) (payloadBytes (swapHeader m pos) (pos + 4) (readBE16 m (pos + 2)))
        have hih := ih (tffs_step m l pos count).1 (tffs_step m l pos count).2.1
          (tffs_step m l pos count).2.2.2 (tffs_step m l pos count).2.2.1
        unfold tffs_step at hih ⊢
        simp only at hih ⊢
        by_cases hf : (updateFirst l (readBE16 m pos) (readBE16 m (pos + 2)) (pos + 4)
            (payloadBytes (swapHeader m pos) (pos + 4) (readBE16 m (pos + 2)))).2
        · simp [hf] at hu hih ⊢
          omega
        · simp [hf] at hu hih ⊢
          omega
    · rw [tffs_parse_loop_exit _ _ _ _ _ _ hg]

/-- C6: the scan loop runs only while `pos + 4 < size` (strict), so no header
is read from the final 4 bytes; a buffer shorter than one 4-byte header
yields the empty result: unchanged memory, pristine table, `count = 0`
(the code has no malformed-input channel, so no error is signalled). -/
theorem tffs_parse_short_buffer (size : Nat) (m : Mem) :
    (∀ fuel (l : List TffsId) (pos count : Nat), ¬ pos + 4 < size →
      tffs_parse_loop fuel size m l pos count = (m, l, count)) ∧
    (size < 4 → tffs_parse size m = (m, ids, 0)) := by
  constructor
  · intro fuel l pos count h
    exact tffs_parse_loop_exit fuel size m l pos count h
  · intro h
    unfold tffs_parse tffs_parse_from
    exact tffs_parse_loop_exit size size m ids 0 0 (by omega)

theorem tffs_parse_short_buffer_witness :
    tffs_parse 3 (memOfList [1, 2, 3]) = (memOfList [1, 2, 3], ids, 0) :=
  (tffs_parse_short_buffer 3 (memOfList [1, 2, 3])).2 (by omega)

/-- C5: a buffer whose first readable header carries tag `0xFFFF` makes the
scan stop immediately: no record is consumed, the table stays pristine and
`count = 0`; the only effect is the in-place byte swap of the sentinel
header itself.  This is the normal `goto end` path, not an error. -/
theorem tffs_parse_sentinel_first (size : Nat) (m : Mem)
    (hg : 4 < size) (hs : readBE16 m 0 = 0xffff) :
    tffs_parse size m = (swapHeader m 0, ids, 0) := by
  unfold tffs_parse tffs_parse_from
  exact tffs_parse_loop_sentinel2 size size m ids 0 0 (by omega) hs (by omega)

theorem tffs_parse_sentinel_first_witness :
    tffs_parse 8 (memOfList [255, 255, 0, 0]) =
      (swapHeader (memOfList [255, 255, 0, 0]) 0, ids, 0) :=
  tffs_parse_sentinel_first 8 (memOfList [255, 255, 0, 0]) (by omega) (by decide)

/-- C7: `tffs_find_id` returns the first table entry in declaration order
whose tag equals the input (`none` when no entry matches); it is a pure
function and absence is an optional result, not a failure. -/
theorem tffs_find_id_spec (l : List TffsId) (t : Nat) :
    (tffs_find_id l t = none ↔ ∀ e ∈ l, e.id ≠ t) ∧
    (∀ e, tffs_find_id l t = some e → e.id = t ∧
      ∃ i : Nat, l[i]? = some e ∧
        ∀ j, j < i → ∀ x : TffsId, l[j]? = some x → x.id ≠ t) := by
  induction l with
  | nil =>
    constructor
    · simp [tffs_find_id]
    · intro e h
      simp [tffs_find_id] at h
  | cons a rest ih =>
    by_cases ha : a.id = t
    · have hfind : tffs_find_id (a :: rest) t = some a := by
        unfold tffs_find_id
        rw [List.find?_cons_of_pos]
        simp [ha]
      constructor
      · rw [hfind]
        constructor
        · intro h
          exact absurd h (by simp)
        · intro h
          exact absurd ha (h a (by simp))
      · intro e he
        rw [hfind] at he
        injection he with he
        subst he
        refine ⟨ha, 0, by simp, ?_⟩
        intro j hj
        omega
    · have hfind : tffs_find_id (a :: rest) t = tffs_find_id rest t :=
        tffs_find_id_cons_neg a rest t ha
      constructor
      · rw [hfind, ih.1]
        constructor
        · intro h e he
          rcases List.mem_cons.mp he with h1 | h1
          · subst h1; exact ha
          · exact h e h1
        · intro h e he
          exact h e (List.mem_cons_of_mem a he)
      · intro e he
        rw [hfind] at he
        obtain ⟨hid, i, hi, hj⟩ := ih.2 e he
        refine ⟨hid, i + 1, by simpa using hi, ?_⟩
        intro j hjlt x hx
        cases j with
        | zero =>
          simp at hx
          subst hx
          exact ha
        | succ k =>
          simp at hx
          exact hj k (by omega) x hx

theorem tffs_find_id_spec_witness : tffs_find_id ids 1 = none :=
  (tffs_find_id_spec ids 1).1.mpr (by decide)

/-- C4: a processed non-sentinel record at `pos` with declared length `L`
moves the cursor to exactly `pos + (4 + ((L + 3) &&& ~3))` (32-bit mask
`0xFFFFFFFC`), whether or not its tag is registered; this advance is at
least 4 per iteration, and the scan result is fuel-independent for any
fuel covering `size - pos` (in particular the `tffs_size` units of fuel
supplied by `tffs_parse` suffice: the loop always terminates). -/
theorem tffs_parse_step_advance (fuel size : Nat) (m : Mem) (l : List TffsId)
    (pos count : Nat) :
    ((tffs_step m l pos count).2.2.2 =
      pos + (4 + ((readBE16 m (pos + 2) + 3) &&& 0xFFFFFFFC))) ∧
    (4 ≤ (tffs_step m l pos count).2.2.2 - pos) ∧
    (pos + 4 < size → readBE16 m pos ≠ 0xffff →
      tffs_parse_loop (fuel + 1) size m l pos count =
        tffs_parse_loop fuel size (tffs_step m l pos count).1
          (tffs_step m l pos count).2.1 (tffs_step m l pos count).2.2.2
          (tffs_step m l pos count).2.2.1) ∧
    (∀ f2, size - pos ≤ fuel → size - pos ≤ f2 →
      tffs_parse_loop fuel size m l pos count =
        tffs_parse_loop f2 size m l pos count) := by
  refine ⟨?_, ?_, ?_, ?_⟩
  · unfold tffs_step pad4
    simp only
    omega
  · unfold tffs_step
    simp only
    omega
  · intro hg hs
    exact tffs_parse_loop_step fuel size m l pos count hg hs
  · intro f2 h1 h2
    exact tffs_parse_loop_fuel fuel f2 size m l pos count h1 h2

theorem tffs_parse_step_advance_witness :
    tffs_parse_loop (11 + 1) 12 (memOfList [1, 0, 0, 0, 255, 255, 0, 0]) ids 0 0 =
      tffs_parse_loop 11 12
        (tffs_step (memOfList [1, 0, 0, 0, 255, 255, 0, 0]) ids 0 0).1
        (tffs_step (memOfList [1, 0, 0, 0, 255, 255, 0, 0]) ids 0 0).2.1
        (tffs_step (memOfList [1, 0, 0, 0, 255, 255, 0, 0]) ids 0 0).2.2.2
        (tffs_step (memOfList [1, 0, 0, 0, 255, 255, 0, 0]) ids 0 0).2.2.1 :=
  (tffs_parse_step_advance 11 12 (memOfList [1, 0, 0, 0, 255, 255, 0, 0]) ids 0 0).2.2.1
    (by omega) (by decide)

/-- C9 (amended): the count returned by a scan does not depend on decoded
values left in the table by earlier calls — it is determined by the buffer
and the registry's tag column alone.  (Decoded values themselves do persist
across calls, see the counterexample.) -/
theorem tffs_parse_count_independent (l1 l2 : List TffsId) (size : Nat) (m : Mem)
    (h : l1.map (fun e => e.id) = l2.map (fun e => e.id)) :
    (tffs_parse_from l1 size m).2.2 = (tffs_parse_from l2 size m).2.2 := by
  unfold tffs_parse_from
  rw [tffs_parse_loop_count, tffs_parse_loop_count, h]

/-- C2 (amended): the count returned by `tffs_parse` equals the number of
scanned non-sentinel records whose tag occurs in the registry — duplicates
each contribute one — and the number of distinct registry entries holding a
Decoded Value is only a lower bound for it (strictly smaller when two
records carry the same registered tag). -/
theorem tffs_parse_count_matched (size : Nat) (m : Mem) :
    (tffs_parse size m).2.2 =
      matchedRecordCount size size m (ids.map (fun e => e.id)) 0 ∧
    decodedValueCountSpec (tffs_parse size m).2.1 ≤ (tffs_parse size m).2.2 := by
  constructor
  · have h := tffs_parse_loop_count size size m ids 0 0
    unfold tffs_parse tffs_parse_from
    simpa using h
  · have h := tffs_parse_loop_valCount size size m ids 0 0
    have h0 : decodedValueCountSpec ids = 0 := by decide
    unfold tffs_parse tffs_parse_from
    omega

/-- C2 counterexample: a buffer holding two records with the same registered
tag `0x0100` yields `count = 2` while only one distinct registry entry holds
a Decoded Value, refuting `count == number of distinct registry entries
with a non-empty Decoded Value`. -/
theorem tffs_parse_count_counterexample :
    (tffs_parse 12 (memOfList [1, 0, 0, 0, 1, 0, 0, 0, 255, 255, 0, 0])).2.2 = 2 ∧
    decodedValueCountSpec
      (tffs_parse 12 (memOfList [1, 0, 0, 0, 1, 0, 0, 0, 255, 255, 0, 0])).2.1 = 1 := by
  constructor
  · decide
  · decide

/-- C1 (showing the code bug): a record declaring `length = 9` with only 8
bytes left in a 12-byte buffer is not rejected — `tffs_parse` copies the
payload anyway, returns `count = 1` with no error indication, and the stored
Decoded Value depends on the memory byte at address 12, one past the buffer:
two memories identical on the whole 12-byte buffer produce different decode
results, exhibiting the out-of-bounds read the claim requires the decoder
to prevent. -/
theorem tffs_parse_oob_read :
    ([1, 1, 0, 9, 10, 11, 12, 13, 14, 15, 16, 17, 7].take 12 =
      [1, 1, 0, 9, 10, 11, 12, 13, 14, 15, 16, 17, 9].take 12) ∧
    (tffs_parse 12 (memOfList [1, 1, 0, 9, 10, 11, 12, 13, 14, 15, 16, 17, 7])).2.2 = 1 ∧
    (tffs_parse 12 (memOfList [1, 1, 0, 9, 10, 11, 12, 13, 14, 15, 16, 17, 9])).2.2 = 1 ∧
    (tffs_find_id
        (tffs_parse 12 (memOfList [1, 1, 0, 9, 10, 11, 12, 13, 14, 15, 16, 17, 7])).2.1
        0x0101).map (fun e => e.val) =
      some (some [10, 11, 12, 13, 14, 15, 16, 17, 7]) ∧
    (tffs_parse 12 (memOfList [1, 1, 0, 9, 10, 11, 12, 13, 14, 15, 16, 17, 7])).2.1.map
        (fun e => e.val) ≠
      (tffs_parse 12 (memOfList [1, 1, 0, 9, 10, 11, 12, 13, 14, 15, 16, 17, 9])).2.1.map
        (fun e => e.val) := by
  refine ⟨by decide, by decide, by decide, by decide, by decide⟩

/-- C9 counterexample: the table is a mutated process global, so decode
calls are not independent.  Scanning buffer A (a `productid` record) and
then buffer B (just a sentinel) leaves A's Decoded Value visible in B's
scan result, while a fresh scan of B alone has no value for `productid`. -/
theorem tffs_parse_not_independent :
    (tffs_find_id
        (tffs_parse_from
          (tffs_parse_from ids 12
            (memOfList [1, 1, 0, 4, 65, 66, 67, 68, 255, 255, 0, 0])).2.1
          8 (memOfList [255, 255, 0, 0])).2.1
        0x0101).map (fun e => e.val) = some (some [65, 66, 67, 68]) ∧
    (tffs_find_id
        (tffs_parse_from ids 8 (memOfList [255, 255, 0, 0])).2.1
        0x0101).map (fun e => e.val) = some none := by
  refine ⟨by decide, by decide⟩

theorem tffs_parse_count_independent_witness :
    (tffs_parse_from
        (tffs_parse_from ids 12
          (memOfList [1, 1, 0, 4, 65, 66, 67, 68, 255, 255, 0, 0])).2.1
        8 (memOfList [255, 255, 0, 0])).2.2 =
      (tffs_parse_from ids 8 (memOfList [255, 255, 0, 0])).2.2 :=
  tffs_parse_count_independent
    (tffs_parse_from ids 12
      (memOfList [1, 1, 0, 4, 65, 66, 67, 68, 255, 255, 0, 0])).2.1
    ids 8 (memOfList [255, 255, 0, 0]) (by decide)

theorem swapHeader_at0 (m : Mem) (pos : Nat) : swapHeader m pos pos = m (pos + 1) := by
  simp [swapHeader]

theorem swapHeader_at1 (m : Mem) (pos : Nat) : swapHeader m pos (pos + 1) = m pos := by
  unfold swapHeader
  have h : pos + 1 ≠ pos := by omega
  simp [h]

theorem swapHeader_at2 (m : Mem) (pos : Nat) :
    swapHeader m pos (pos + 2) = m (pos + 3) := by
  unfold swapHeader
  have h0 : pos + 2 ≠ pos := by omega
  have h1 : pos + 2 ≠ pos + 1 := by omega
  simp [h0, h1]

theorem swapHeader_at3 (m : Mem) (pos : Nat) :
    swapHeader m pos (pos + 3) = m (pos + 2) := by
  unfold swapHeader
  have h0 : pos + 3 ≠ pos := by omega
  have h1 : pos + 3 ≠ pos + 1 := by omega
  have h2 : pos + 3 ≠ pos + 2 := by omega
  simp [h0, h1, h2]

theorem visitedHeaders_exit (fuel size : Nat) (m : Mem) (pos : Nat)
    (h : ¬ pos + 4 < size) : visitedHeaders fuel size m pos = [] := by
  cases fuel <;> simp [visitedHeaders, h]

theorem visitedHeaders_sentinel (fuel size : Nat) (m : Mem) (pos : Nat)
    (hg : pos + 4 < size) (hs : readBE16 m pos = 0xffff) :
    visitedHeaders (fuel + 1) size m pos = [pos] := by
  simp [visitedHeaders, hg, hs]

theorem visitedHeaders_step (fuel size : Nat) (m : Mem) (pos : Nat)
    (hg : pos + 4 < size) (hs : readBE16 m pos ≠ 0xffff) :
    visitedHeaders (fuel + 1) size m pos =
      pos :: visitedHeaders fuel size (swapHeader m pos)
        (pos + 4 + pad4 (readBE16 m (pos + 2))) := by
  conv_lhs => unfold visitedHeaders
  simp [hg, hs]

theorem visitedHeaders_ge (fuel size : Nat) (m : Mem) (pos : Nat) :
    ∀ p ∈ visitedHeaders fuel size m pos, pos ≤ p := by
  induction fuel generalizing m pos with
  | zero =>
    intro p hp
    simp [visitedHeaders] at hp
  | succ k ih =>
    intro p hp
    by_cases hg : pos + 4 < size
    · by_cases hs : readBE16 m pos = 0xffff
      · rw [visitedHeaders_sentinel _ _ _ _ hg hs] at hp
        simp at hp
        omega
      · rw [visitedHeaders_step _ _ _ _ hg hs] at hp
        rcases List.mem_cons.mp hp with h1 | h1
        · omega
        · have := ih (swapHeader m pos) (pos + 4 + pad4 (readBE16 m (pos + 2))) p h1
          omega
    · rw [visitedHeaders_exit _ _ _ _ hg] at hp
      simp at hp

theorem tffs_step_mem (m : Mem) (l : List TffsId) (pos count : Nat) :
    (tffs_step m l pos count).1 = swapHeader m pos := rfl

theorem tffs_step_pos (m : Mem) (l : List TffsId) (pos count : Nat) :
    (tffs_step m l pos count).2.2.2 = pos + 4 + pad4 (readBE16 m (pos + 2)) := rfl

theorem tffs_parse_loop_frame (fuel size : Nat) (m : Mem) (l : List TffsId)
    (pos count : Nat) :
    (∀ p ∈ visitedHeaders fuel size m pos,
      (tffs_parse_loop fuel size m l pos count).1 p = m (p + 1) ∧
      (tffs_parse_loop fuel size m l pos count).1 (p + 1) = m p ∧
      (tffs_parse_loop fuel size m l pos count).1 (p + 2) = m (p + 3) ∧
      (tffs_parse_loop fuel size m l pos count).1 (p + 3) = m (p + 2)) ∧
    (∀ a, (∀ p ∈ visitedHeaders fuel size m pos, a < p ∨ p + 4 ≤ a) →
      (tffs_parse_loop fuel size m l pos count).1 a = m a) := by
  induction fuel generalizing m l pos count with
  | zero =>
    constructor
    · intro p hp
      simp [visitedHeaders] at hp
    · intro a _
      rfl
  | succ k ih =>
    by_cases hg : pos + 4 < size
    · by_cases hs : readBE16 m pos = 0xffff
      · rw [visitedHeaders_sentinel _ _ _ _ hg hs,
          tffs_parse_loop_sentinel _ _ _ _ _ _ hg hs]
        constructor
        · intro p hp
          simp at hp
          subst hp
          exact ⟨swapHeader_at0 m p, swapHeader_at1 m p,
            swapHeader_at2 m p, swapHeader_at3 m p⟩
        · intro a ha
          rcases ha pos (by simp) with h1 | h1
          · exact swapHeader_eq_of_lt m pos a h1
          · exact swapHeader_eq_of_ge m pos a h1
      · rw [visitedHeaders_step _ _ _ _ hg hs,
          tffs_parse_loop_step _ _ _ _ _ _ hg hs, tffs_step_mem, tffs_step_pos]
        have hmono := visitedHeaders_ge k size (swapHeader m pos)
          (pos + 4 + pad4 (readBE16 m (pos + 2)))
        have hih := ih (swapHeader m pos) (tffs_step m l pos count).2.1
          (pos + 4 + pad4 (readBE16 m (pos + 2))) (tffs_step m l pos count).2.2.1
        constructor
        · intro p hp
          rcases List.mem_cons.mp hp with h1 | h1
          · subst h1
            have hout : ∀ b, b < p + 4 →
                (tffs_parse_loop k size (swapHeader m p)
                  (tffs_step m l p count).2.1
                  (p + 4 + pad4 (readBE16 m (p + 2)))
                  (tffs_step m l p count).2.2.1).1 b = swapHeader m p b := by
              intro b hb
              apply hih.2
              intro q hq
              have := hmono q hq
              omega
            refine ⟨?_, ?_, ?_, ?_⟩
            · rw [hout p (by omega), swapHeader_at0]
            · rw [hout (p + 1) (by omega), swapHeader_at1]
            · rw [hout (p + 2) (by omega), swapHeader_at2]
            · rw [hout (p + 3) (by omega), swapHeader_at3]
          · have hge := hmono p h1
            have h4 : pos + 4 ≤ p := by omega
            obtain ⟨e1, e2, e3, e4⟩ := hih.1 p h1
            refine ⟨?_, ?_, ?_, ?_⟩
            · rw [e1, swapHeader_eq_of_ge m pos (p + 1) (by omega)]
            · rw [e2, swapHeader_eq_of_ge m pos p (by omega)]
            · rw [e3, swapHeader_eq_of_ge m pos (p + 3) (by omega)]
            · rw [e4, swapHeader_eq_of_ge m pos (p + 2) (by omega)]
        · intro a ha
          have h1 := ha pos (by simp)
          have h2 := hih.2 a (fun q hq => ha q (List.mem_cons_of_mem _ hq))
          rw [h2]
          rcases h1 with h1 | h1
          · exact swapHeader_eq_of_lt m pos a h1
          · exact swapHeader_eq_of_ge m pos a h1
    · rw [visitedHeaders_exit _ _ _ _ hg, tffs_parse_loop_exit _ _ _ _ _ _ hg]
      constructor
      · intro p hp
        simp at hp
      · intro a _
        rfl

/-- C10: `tffs_parse` mutates its input buffer exactly at the headers it
visits (including the sentinel header and headers of unregistered tags):
each visited header's two 16-bit fields have their bytes swapped in place
(`ntohs` writing the host-order value back on a little-endian host), and
every byte outside the visited headers — all payload and padding bytes — is
left unchanged. -/
theorem tffs_parse_frame (size : Nat) (m : Mem) :
    (∀ p ∈ visitedHeaders size size m 0,
      (tffs_parse size m).1 p = m (p + 1) ∧
      (tffs_parse size m).1 (p + 1) = m p ∧
      (tffs_parse size m).1 (p + 2) = m (p + 3) ∧
      (tffs_parse size m).1 (p + 3) = m (p + 2)) ∧
    (∀ a, (∀ p ∈ visitedHeaders size size m 0, a < p ∨ p + 4 ≤ a) →
      (tffs_parse size m).1 a = m a) := by
  unfold tffs_parse tffs_parse_from
  exact tffs_parse_loop_frame size size m ids 0 0

theorem tffs_parse_frame_witness :
    (tffs_parse 12 (memOfList [1, 0, 0, 0, 255, 255, 0, 0])).1 5 =
      memOfList [1, 0, 0, 0, 255, 255, 0, 0] 4 ∧
    (tffs_parse 12 (memOfList [1, 0, 0, 0, 255, 255, 0, 0])).1 9 =
      memOfList [1, 0, 0, 0, 255, 255, 0, 0] 9 :=
  ⟨((tffs_parse_frame 12 (memOfList [1, 0, 0, 0, 255, 255, 0, 0])).1 4
      (by decide)).2.1,
   (tffs_parse_frame 12 (memOfList [1, 0, 0, 0, 255, 255, 0, 0])).2 9
      (by decide)⟩

theorem tffs_parse_loop_step_record (fuel size : Nat) (m : Mem) (l : List TffsId)
    (pos count t : Nat) (p : List Nat)
    (hid : readBE16 m pos = t) (hlen : readBE16 m (pos + 2) = p.length)
    (hpay : payloadBytes m (pos + 4) p.length = p)
    (hg : pos + 4 < size) (ht : t ≠ 0xffff) (hf : 1 ≤ fuel) :
    tffs_parse_loop fuel size m l pos count =
      tffs_parse_loop (fuel - 1) size (swapHeader m pos)
        (updateFirst l t p.length (pos + 4) p).1
        (pos + 4 + pad4 p.length)
        (if (updateFirst l t p.length (pos + 4) p).2 then count + 1 else count) := by
  rw [tffs_parse_loop_step2 fuel size m l pos count hg (by rw [hid]; exact ht) hf,
    tffs_step_spec m l pos count t p hid hlen hpay]

/-- C3: a buffer holding two well-formed records with the same registered
tag followed by the sentinel decodes so that the matching registry entry's
Decoded Value equals the payload of the second, later-scanned record: each
match overwrites the prior value (last-write-wins). -/
theorem tffs_parse_last_write_wins (t : Nat) (p1 p2 : List Nat)
    (ht : t < 65535)
    (hreg : (ids.map (fun e => e.id)).contains t = true)
    (h1 : p1.length < 65536) (h2 : p2.length < 65536) :
    ∃ e, tffs_find_id
        ((tffs_parse ((mkRecord t p1 ++ mkRecord t p2 ++ [255, 255]).length + 3)
          (memOfList (mkRecord t p1 ++ mkRecord t p2 ++ [255, 255]))).2.1) t
        = some e ∧
      e.val = some p2 := by
  have hpow : (2 : Nat) ^ 32 = 4294967296 := by norm_num
  have h32a : p1.length + 3 < 2 ^ 32 := by omega
  have h32b : p2.length + 3 < 2 ^ 32 := by omega
  have ht16 : t < 65536 := by omega
  have hlen1 : (mkRecord t p1).length = 4 + pad4 p1.length := mkRecord_length t p1 h32a
  have hlen2 : (mkRecord t p2).length = 4 + pad4 p2.length := mkRecord_length t p2 h32b
  set B := mkRecord t p1 ++ mkRecord t p2 ++ [255, 255] with hB
  have hBlen : B.length = (4 + pad4 p1.length) + (4 + pad4 p2.length) + 2 := by
    rw [hB]
    simp only [List.length_append, hlen1, hlen2, List.length_cons, List.length_nil]
  have ht1 : readBE16 (memOfList B) 0 = t := by
    have h := readBE16_mkRecord_tag [] t p1 (mkRecord t p2 ++ [255, 255]) ht16
    simpa [hB] using h
  have hl1 : readBE16 (memOfList B) (0 + 2) = p1.length := by
    have h := readBE16_mkRecord_len [] t p1 (mkRecord t p2 ++ [255, 255]) h1
    simpa [hB] using h
  have hpay1 : payloadBytes (memOfList B) (0 + 4) p1.length = p1 := by
    have h := payloadBytes_mkRecord [] t p1 (mkRecord t p2 ++ [255, 255])
    simpa [hB] using h
  have ht2 : readBE16 (memOfList B) (4 + pad4 p1.length) = t := by
    have h := readBE16_mkRecord_tag (mkRecord t p1) t p2 [255, 255] ht16
    rw [hlen1] at h
    simpa [hB] using h
  have hl2 : readBE16 (memOfList B) ((4 + pad4 p1.length) + 2) = p2.length := by
    have h := readBE16_mkRecord_len (mkRecord t p1) t p2 [255, 255] h2
    rw [hlen1] at h
    simpa [hB] using h
  have hpay2 : payloadBytes (memOfList B) ((4 + pad4 p1.length) + 4) p2.length = p2 := by
    have h := payloadBytes_mkRecord (mkRecord t p1) t p2 [255, 255]
    rw [hlen1] at h
    simpa [hB] using h
  have hsent : readBE16 (memOfList B)
      ((4 + pad4 p1.length) + (4 + pad4 p2.length)) = 0xffff := by
    have hassoc : B = (mkRecord t p1 ++ mkRecord t p2) ++ 255 :: 255 :: [] := by
      simp [hB]
    have h := readBE16_memOfList (mkRecord t p1 ++ mkRecord t p2) 255 255 []
    rw [List.length_append, hlen1, hlen2] at h
    rw [hassoc, h]
  unfold tffs_parse tffs_parse_from
  rw [tffs_parse_loop_step_record (B.length + 3) (B.length + 3) (memOfList B) ids
    0 0 t p1 ht1 hl1 hpay1 (by omega) (by omega) (by omega)]
  have ht2s : readBE16 (swapHeader (memOfList B) 0) (0 + 4 + pad4 p1.length) = t := by
    rw [readBE16_swapHeader_ge _ _ _ (by omega)]
    have hq : 0 + 4 + pad4 p1.length = 4 + pad4 p1.length := by omega
    rw [hq]
    exact ht2
  have hl2s : readBE16 (swapHeader (memOfList B) 0)
      ((0 + 4 + pad4 p1.length) + 2) = p2.length := by
    rw [readBE16_swapHeader_ge _ _ _ (by omega)]
    have hq : (0 + 4 + pad4 p1.length) + 2 = (4 + pad4 p1.length) + 2 := by omega
    rw [hq]
    exact hl2
  have hpay2s : payloadBytes (swapHeader (memOfList B) 0)
      ((0 + 4 + pad4 p1.length) + 4) p2.length = p2 := by
    rw [payloadBytes_swapHeader _ _ _ _ (by omega)]
    have hq : (0 + 4 + pad4 p1.length) + 4 = (4 + pad4 p1.length) + 4 := by omega
    rw [hq]
    exact hpay2
  rw [tffs_parse_loop_step_record (B.length + 3 - 1) (B.length + 3)
    (swapHeader (memOfList B) 0) (updateFirst ids t p1.length (0 + 4) p1).1
    (0 + 4 + pad4 p1.length) _ t p2 ht2s hl2s hpay2s (by omega) (by omega) (by omega)]
  have hsent2 : readBE16
      (swapHeader (swapHeader (memOfList B) 0) (0 + 4 + pad4 p1.length))
      ((0 + 4 + pad4 p1.length) + 4 + pad4 p2.length) = 0xffff := by
    rw [readBE16_swapHeader_ge _ _ _ (by omega),
      readBE16_swapHeader_ge _ _ _ (by omega)]
    have hq : (0 + 4 + pad4 p1.length) + 4 + pad4 p2.length =
        (4 + pad4 p1.length) + (4 + pad4 p2.length) := by omega
    rw [hq]
    exact hsent
  rw [tffs_parse_loop_sentinel2 _ _ _ _ _ _ (by omega) hsent2 (by omega)]
  have hany : (updateFirst ids t p1.length (0 + 4) p1).1.any
      (fun e => e.id == t) = true := by
    rw [updateFirst_any_id, ← any_id_eq_contains]
    exact hreg
  obtain ⟨e, he, hval, _, _⟩ := tffs_find_id_updateFirst
    (updateFirst ids t p1.length (0 + 4) p1).1 t p2.length
    ((0 + 4 + pad4 p1.length) + 4) p2 hany
  exact ⟨e, he, hval⟩

theorem tffs_parse_last_write_wins_witness :
    ∃ e, tffs_find_id
        ((tffs_parse
          ((mkRecord 257 [65] ++ mkRecord 257 [66, 67] ++ [255, 255]).length + 3)
          (memOfList (mkRecord 257 [65] ++ mkRecord 257 [66, 67] ++ [255, 255]))).2.1)
        257 = some e ∧
      e.val = some [66, 67] :=
  tffs_parse_last_write_wins 257 [65] [66, 67] (by omega) (by decide)
    (by decide) (by decide)

theorem updateFirst_find_exact (l : List TffsId) (t vlen off : Nat) (p : List Nat)
    (e0 : TffsId) (h : tffs_find_id l t = some e0) :
    tffs_find_id (updateFirst l t vlen off p).1 t =
      some { e0 with len := vlen, offset := off, val := some p } := by
  induction l with
  | nil => simp [tffs_find_id] at h
  | cons a rest ih =>
    by_cases ha : a.id = t
    · have hfind : tffs_find_id (a :: rest) t = some a := by
        unfold tffs_find_id
        rw [List.find?_cons_of_pos]
        simp [ha]
      rw [hfind] at h
      injection h with h
      subst h
      unfold updateFirst
      rw [if_pos ha]
      unfold tffs_find_id
      rw [List.find?_cons_of_pos]
      simp [ha]
    · rw [tffs_find_id_cons_neg a rest t ha] at h
      unfold updateFirst
      rw [if_neg ha]
      rw [tffs_find_id_cons_neg _ _ _ ha]
      exact ih h

/-- The effect of a matched record with tag `0x01A3` on the concrete table:
only the first-registered entry for that tag (`usb_device_id`, index 13)
receives the value; the later-registered duplicate (`usb_revision_id`,
index 14) and every other entry are untouched. -/
theorem updateFirst_ids_01A3 (vlen off : Nat) (p : List Nat) :
    (updateFirst ids 0x01A3 vlen off p).1 =
      [⟨0x0100, "hw_revision", none, 0, 0⟩,
       ⟨0x0101, "productid", none, 0, 0⟩,
       ⟨0x0102, "serialnumber", none, 0, 0⟩,
       ⟨0x0103, "dmc", none, 0, 0⟩,
       ⟨0x0104, "hw_subrevision", none, 0, 0⟩,
       ⟨0x0182, "bootloader_version", none, 0, 0⟩,
       ⟨0x0184, "macbluetooth", none, 0, 0⟩,
       ⟨0x0188, "maca", none, 0, 0⟩,
       ⟨0x0189, "macb", none, 0, 0⟩,
       ⟨0x018A, "macwlan", none, 0, 0⟩,
       ⟨0x018B, "macdsl", none, 0, 0⟩,
       ⟨0x018F, "my_ipaddress", none, 0, 0⟩,
       ⟨0x0195, "macwlan2", none, 0, 0⟩,
       ⟨0x01A3, "usb_device_id", some p, off, vlen⟩,
       ⟨0x01A3, "usb_revision_id", none, 0, 0⟩,
       ⟨0x01A4, "usb_device_name", none, 0, 0⟩,
       ⟨0x01A5, "usb_manufacturer_name", none, 0, 0⟩,
       ⟨0x01A6, "firmware_version", none, 0, 0⟩,
       ⟨0x01A7, "language", none, 0, 0⟩,
       ⟨0x01A8, "country", none, 0, 0⟩,
       ⟨0x01A9, "annex", none, 0, 0⟩,
       ⟨0x01AB, "wlan_key", none, 0, 0⟩,
       ⟨0x01AD, "http_key", none, 0, 0⟩,
       ⟨0x01B8, "wlan_cal", none, 0, 0⟩,
       ⟨0x01FD, "urlader_version", none, 0, 0⟩] := by
  simp [ids, updateFirst]

/-- C8 counterexample: a record with the duplicate tag `0x01A3` stores its
value under `usb_device_id` (the first-registered entry), leaving the
last-registered entry `usb_revision_id` empty, refuting the claim that the
value is associated with the last-registered registry entry for the tag. -/
theorem tffs_parse_duplicate_tag_counterexample :
    ((tffs_parse 12 (memOfList [0x01, 0xA3, 0, 1, 65, 0, 0, 0, 255, 255, 0, 0])).2.1)[13]?
      = some ⟨0x01A3, "usb_device_id", some [65], 4, 1⟩ ∧
    ((tffs_parse 12 (memOfList [0x01, 0xA3, 0, 1, 65, 0, 0, 0, 255, 255, 0, 0])).2.1)[14]?
      = some ⟨0x01A3, "usb_revision_id", none, 0, 0⟩ := by
  refine ⟨by decide, by decide⟩

/-- C8 (amended): for every well-formed record carrying the duplicate tag
`0x01A3`, the Decoded Value is associated with the FIRST-registered registry
entry for that tag (`usb_device_id`, the entry `tffs_find_id` returns),
while the later-registered duplicate (`usb_revision_id`) keeps no value. -/
theorem tffs_parse_duplicate_tag_first_wins (p : List Nat) (hp : p.length < 65536) :
    tffs_find_id ((tffs_parse ((mkRecord 0x01A3 p ++ [255, 255]).length + 3)
        (memOfList (mkRecord 0x01A3 p ++ [255, 255]))).2.1) 0x01A3 =
      some ⟨0x01A3, "usb_device_id", some p, 4, p.length⟩ ∧
    ((tffs_parse ((mkRecord 0x01A3 p ++ [255, 255]).length + 3)
        (memOfList (mkRecord 0x01A3 p ++ [255, 255]))).2.1)[14]? =
      some ⟨0x01A3, "usb_revision_id", none, 0, 0⟩ := by
  have hpow : (2 : Nat) ^ 32 = 4294967296 := by norm_num
  have h32 : p.length + 3 < 2 ^ 32 := by omega
  have hlen1 : (mkRecord 0x01A3 p).length = 4 + pad4 p.length :=
    mkRecord_length 0x01A3 p h32
  set B := mkRecord 0x01A3 p ++ [255, 255] with hB
  have hBlen : B.length = (4 + pad4 p.length) + 2 := by
    rw [hB]
    simp only [List.length_append, hlen1, List.length_cons, List.length_nil]
  have ht1 : readBE16 (memOfList B) 0 = 0x01A3 := by
    have h := readBE16_mkRecord_tag [] 0x01A3 p [255, 255] (by omega)
    simpa [hB] using h
  have hl1 : readBE16 (memOfList B) (0 + 2) = p.length := by
    have h := readBE16_mkRecord_len [] 0x01A3 p [255, 255] hp
    simpa [hB] using h
  have hpay1 : payloadBytes (memOfList B) (0 + 4) p.length = p := by
    have h := payloadBytes_mkRecord [] 0x01A3 p [255, 255]
    simpa [hB] using h
  have hsent : readBE16 (memOfList B) (4 + pad4 p.length) = 0xffff := by
    have h := readBE16_memOfList (mkRecord 0x01A3 p) 255 255 []
    rw [hlen1] at h
    have hx : (mkRecord 0x01A3 p) ++ 255 :: 255 :: [] = B := by simp [hB]
    rw [hx] at h
    simpa using h
  unfold tffs_parse tffs_parse_from
  rw [tffs_parse_loop_step_record (B.length + 3) (B.length + 3) (memOfList B) ids
    0 0 0x01A3 p ht1 hl1 hpay1 (by omega) (by omega) (by omega)]
  have hsent2 : readBE16 (swapHeader (memOfList B) 0) (0 + 4 + pad4 p.length)
      = 0xffff := by
    rw [readBE16_swapHeader_ge _ _ _ (by omega)]
    have hq : 0 + 4 + pad4 p.length = 4 + pad4 p.length := by omega
    rw [hq]
    exact hsent
  rw [tffs_parse_loop_sentinel2 _ _ _ _ _ _ (by omega) hsent2 (by omega)]
  constructor
  · have h := updateFirst_find_exact ids 0x01A3 p.length (0 + 4) p
      ⟨0x01A3, "usb_device_id", none, 0, 0⟩ (by decide)
    simpa using h
  · show ((updateFirst ids 0x01A3 p.length (0 + 4) p).1)[14]? =
      some ⟨0x01A3, "usb_revision_id", none, 0, 0⟩
    rw [updateFirst_ids_01A3]
    rfl

theorem tffs_parse_duplicate_tag_first_wins_witness :
    tffs_find_id ((tffs_parse ((mkRecord 0x01A3 [65] ++ [255, 255]).length + 3)
        (memOfList (mkRecord 0x01A3 [65] ++ [255, 255]))).2.1) 0x01A3 =
      some ⟨0x01A3, "usb_device_id", some [65], 4, 1⟩ ∧
    ((tffs_parse ((mkRecord 0x01A3 [65] ++ [255, 255]).length + 3)
        (memOfList (mkRecord 0x01A3 [65] ++ [255, 255]))).2.1)[14]? =
      some ⟨0x01A3, "usb_revision_id", none, 0, 0⟩ :=
  tffs_parse_duplicate_tag_first_wins [65] (by decide)
